import Mathlib

/-!
Verification of the paparazzi point-to-polygon notebook
(`notebooks/paparazzi_point_to_polygon_with_sam.ipynb`).

The notebook's pipeline is embedded shallowly: text is `List Char`
(mirroring Python string operations), coordinates and scores are `Int`,
images are 3-channel pixel grids, masks are boolean grids, and the external
SAM2 predictor, the polygon extractor from `utils` and the file system are
parameters of the pipeline functions.
-/

namespace PaparazziSam

/-! ## Text utilities mirroring the Python string operations used -/

/-- Python `text.split(sep)` over characters: always returns a nonempty list
of chunks; splitting the empty text yields one empty chunk. -/
def pySplit (sep : Char) : List Char → List (List Char)
  | [] => [[]]
  | c :: rest =>
    if c = sep then [] :: pySplit sep rest
    else
      match pySplit sep rest with
      | [] => [[c]]
      | p :: ps => (c :: p) :: ps

/-- Python `sep.join(chunks)` for a one-character separator. -/
def joinSep (sep : Char) : List (List Char) → List Char
  | [] => []
  | [p] => p
  | p :: q :: rest => p ++ sep :: joinSep sep (q :: rest)

/-- Join chunks with the two-character separator `", "`, as in Python's
`str` of a list. -/
def joinCommaSpace : List (List Char) → List Char
  | [] => []
  | [p] => p
  | p :: q :: rest => p ++ ',' :: ' ' :: joinCommaSpace (q :: rest)

/-- The decimal digit character for `d` (`0 ≤ d ≤ 9`). -/
def digitChar (d : Nat) : Char := Char.ofNat (48 + d)

/-- Decimal digits of `n`, most significant first; the fuel argument (any
bound on `n`) makes the recursion structural. -/
def renderNatAux : Nat → Nat → List Char
  | _, 0 => []
  | 0, _ + 1 => []
  | fuel + 1, n + 1 =>
    renderNatAux fuel ((n + 1) / 10) ++ [digitChar ((n + 1) % 10)]

/-- Python `str` of a natural number. -/
def renderNat (n : Nat) : List Char :=
  if n = 0 then [digitChar 0] else renderNatAux n n

/-- Python `str` of an integer (a leading minus sign when negative). -/
def renderInt (i : Int) : List Char :=
  if i < 0 then '-' :: renderNat i.natAbs else renderNat i.toNat

/-- Python `f"{n:03d}"`: decimal text left-padded with zeros to width 3. -/
def pad3 (n : Nat) : List Char :=
  List.replicate (3 - (renderNat n).length) (digitChar 0) ++ renderNat n

/-- Python `str` of a list of integers, e.g. `str([3, 4]) = "[3, 4]"`.
This is how the notebook serializes both the `prompt` column
(`str([row["x"], row["y"]])`) and the `polygon` column
(`str(polygon.ravel().tolist())`). -/
def pyListRepr (l : List Int) : List Char :=
  '[' :: (joinCommaSpace (l.map renderInt) ++ [']'])

/-- The numeric value of a decimal digit character. -/
def charVal (c : Char) : Nat := c.toNat - 48

/-- Consume a maximal run of decimal digits, Horner-accumulating their value. -/
def parseDigitsAux : List Char → Nat → Nat × List Char
  | [], acc => (acc, [])
  | c :: rest, acc =>
    if c.isDigit then parseDigitsAux rest (10 * acc + charVal c) else (acc, c :: rest)

/-- Parse a nonempty run of decimal digits from the front of the text. -/
def parseNat : List Char → Option (Nat × List Char)
  | [] => none
  | c :: rest => if c.isDigit then some (parseDigitsAux rest (charVal c)) else none

/-- Parse a decimal integer (optional leading minus sign) from the front. -/
def parseInt : List Char → Option (Int × List Char)
  | [] => none
  | c :: rest =>
    if c = '-' then
      match parseNat rest with
      | some (n, r) => some (-(n : Int), r)
      | none => none
    else
      match parseNat (c :: rest) with
      | some (n, r) => some ((n : Int), r)
      | none => none

/-- Parse the comma-space separated items of a Python list literal up to and
including the closing bracket, which must end the text. -/
def parseItems : Nat → List Char → Option (List Int)
  | 0, _ => none
  | fuel + 1, l =>
    match parseInt l with
    | none => none
    | some (i, r) =>
      match r with
      | [']'] => some [i]
      | ',' :: ' ' :: r2 => (parseItems fuel r2).map (fun t => i :: t)
      | _ => none

/-- Modelled from the spec: re-parsing the textual form of a flattened
coordinate list (the `polygon` table column) back to the coordinate sequence.
The repository has no reader for `polygon_masks.csv`; this parser inverts
Python's `str` of an integer list, the serialization the notebook uses. -/
def parsePyIntList (s : List Char) : Option (List Int) :=
  match s with
  | '[' :: rest => if rest = [']'] then some [] else parseItems rest.length rest
  | _ => none

/-! ## Data model -/

/-- A decoded source image: a pixel grid of 3-channel values. -/
abbrev Image := List (List (Nat × Nat × Nat))

/-- A predicted mask: a boolean pixel grid. -/
abbrev Mask := List (List Bool)

/-- One row of an annotation file: point coordinates and an uninterpreted
label column. -/
structure AnnRow where
  x : Int
  y : Int
  label : List Char
deriving DecidableEq

/-- The external SAM2 predictor (`predictor.predict` after `set_image`):
given the image, one point prompt and the point labels, returns candidate
masks and their scores. -/
abbrev Predictor := Image → Int × Int → List Nat → List Mask × List Int

/-- The `get_polygon` helper from `utils`: a 0/255 byte raster to a flattened
coordinate sequence. -/
abbrev PolyExtractor := List (List Nat) → List Int

/-- The image directory: file name to decoded image, `none` when absent. -/
abbrev FileSystem := List Char → Option Image

/-- A persisted mask raster: target directory (named after the image stem,
under the results directory), file name and pixel grid. -/
structure MaskFile where
  dir : List Char
  name : List Char
  pixels : List (List Nat)
deriving DecidableEq

/-- One row of `polygon_masks.csv`. -/
structure TableRow where
  image_file : List Char
  prompt : List Char
  mask_id : List Char
  polygon : List Char
deriving DecidableEq

/-! ## The pipeline, embedded from the notebook -/

/-- `get_image`: derive the image name by splitting the annotation stem on
underscores, dropping the final token and rejoining, append `".jpg"`, and
look the file up; `none` mirrors the `(None, None)` sentinel. -/
def get_image (fs : FileSystem) (annName : List Char) : Option (Image × List Char) :=
  let image_name := joinSep '_' ((pySplit '_' annName).dropLast)
  let image_file := image_name ++ ['.', 'j', 'p', 'g']
  match fs image_file with
  | some img => some (img, image_file)
  | none => none

/-- `np.argsort(scores)`: the indices `0..n-1` stably sorted by ascending
score. -/
def argsortAsc (s : List Int) : List Nat :=
  List.insertionSort (fun i j => s.getD i 0 ≤ s.getD j 0) (List.range s.length)

/-- One iteration of the prediction loop: build the prompt from the row's
`x`/`y`, call the predictor with a single positive (`1`) point label, then
reorder masks and scores by descending score (`np.argsort(scores)[::-1]`). -/
def predictPoint (pred : Predictor) (img : Image) (r : AnnRow) :
    (Int × Int) × (List Mask × List Int) :=
  let prompt := (r.x, r.y)
  let ms := pred img prompt (List.replicate 1 1)
  let ind := (argsortAsc ms.2).reverse
  (prompt, (ind.map (fun k => ms.1.getD k []), ind.map (fun k => ms.2.getD k 0)))

/-- `mask[0].astype(np.uint8) * 255`: the boolean grid scaled to 0/255. -/
def maskPixels (m : Mask) : List (List Nat) :=
  m.map (fun rw => rw.map (fun b => if b then 255 else 0))

/-- Python `Path(f).stem`: the file name without its final extension. -/
def pyStem (f : List Char) : List Char :=
  let parts := pySplit '.' f
  if parts.length ≤ 1 then f else joinSep '.' parts.dropLast

/-- The output-writing loop (`for i, mask in enumerate(all_masks)`), carrying
the running index `i`. `lastRow` is the value the Python variable `row` holds
here: the prediction loop's variable, left bound to the final annotation row.
Each iteration keeps `mask[0]`, scales it to 0/255, saves it as
`{mask_id:03d}.png` and appends one table row. -/
def writeLoop (getPoly : PolyExtractor) (saveDir : List Char) (imgFileName : List Char)
    (lastRow : AnnRow) : Nat → List (List Mask) → List MaskFile × List TableRow
  | _, [] => ([], [])
  | i, m :: rest =>
    let mask_np := maskPixels (m.getD 0 [])
    let mask_id := i + 1
    let mf : MaskFile := ⟨saveDir, pad3 mask_id ++ ['.', 'p', 'n', 'g'], mask_np⟩
    let tr : TableRow :=
      ⟨imgFileName, pyListRepr [lastRow.x, lastRow.y], pad3 mask_id,
        pyListRepr (getPoly mask_np)⟩
    let rec2 := writeLoop getPoly saveDir imgFileName lastRow (i + 1) rest
    (mf :: rec2.1, tr :: rec2.2)

/-- Process one annotation file whose rows are already parsed: resolve the
image, run the per-point prediction loop, then write masks and table rows.
Returns `none` when the image is absent (the `continue` branch). -/
def processAnnFile (pred : Predictor) (getPoly : PolyExtractor) (fs : FileSystem)
    (stem : List Char) (rows : List AnnRow) :
    Option (List Char × List MaskFile × List TableRow) :=
  match get_image fs stem with
  | none => none
  | some (img, imgFile) =>
    let preds := rows.map (predictPoint pred img)
    let allMasks := preds.map (fun t => t.2.1)
    let lastRow := rows.getLastD ⟨0, 0, []⟩
    some (imgFile, writeLoop getPoly (pyStem imgFile) imgFile lastRow 0 allMasks)

/-- The outer loop over annotation files (stem and parsed rows): files whose
image is absent are skipped, the rest contribute their outputs in order. -/
def runPipeline (pred : Predictor) (getPoly : PolyExtractor) (fs : FileSystem) :
    List (List Char × List AnnRow) → List (List Char × List MaskFile × List TableRow)
  | [] => []
  | (stem, rows) :: rest =>
    match processAnnFile pred getPoly fs stem rows with
    | none => runPipeline pred getPoly fs rest
    | some out => out :: runPipeline pred getPoly fs rest

/-! ## Reading annotation files -/

/-- Parse a full text as one integer (nothing may remain). -/
def parseIntFull (s : List Char) : Option Int :=
  match parseInt s with
  | some (i, []) => some i
  | _ => none

/-- Parse one tab-delimited annotation line `x<TAB>y<TAB>label`: numeric
parse failure on `x` or `y` fails the line; the label is kept as raw text. -/
def parseAnnLine (line : List Char) : Option AnnRow :=
  match pySplit '\t' line with
  | [xs, ys, ls] =>
    match parseIntFull xs, parseIntFull ys with
    | some x, some y => some ⟨x, y, ls⟩
    | _, _ => none
  | _ => none

/-- Read a whole annotation file (`pd.read_csv` with tab delimiter, no
header, columns `x, y, label`): every line must parse, in file order. -/
def readAnns : List (List Char) → Option (List AnnRow)
  | [] => some []
  | l :: rest =>
    match parseAnnLine l, readAnns rest with
    | some r, some rs => some (r :: rs)
    | _, _ => none

/-- The outer loop at the level of raw annotation files. A file whose image
is absent is skipped; a file with a malformed row raises an uncaught parse
failure, halting the run there (`Except.error` names the halting file). -/
def runPipelineE (pred : Predictor) (getPoly : PolyExtractor) (fs : FileSystem) :
    List (List Char × List (List Char)) →
    Except (List Char) (List (List Char × List MaskFile × List TableRow))
  | [] => Except.ok []
  | (stem, lines) :: rest =>
    match get_image fs stem with
    | none => runPipelineE pred getPoly fs rest
    | some (img, imgFile) =>
      match readAnns lines with
      | none => Except.error stem
      | some rows =>
        match runPipelineE pred getPoly fs rest with
        | Except.error e => Except.error e
        | Except.ok outs =>
          let preds := rows.map (predictPoint pred img)
          let allMasks := preds.map (fun t => t.2.1)
          let lastRow := rows.getLastD ⟨0, 0, []⟩
          Except.ok
            ((imgFile, writeLoop getPoly (pyStem imgFile) imgFile lastRow 0 allMasks)
              :: outs)

/-! ## Lemmas about `pySplit` and `joinSep` -/

theorem pySplit_ne_nil (sep : Char) : ∀ l : List Char, pySplit sep l ≠ []
  | [] => by simp [pySplit]
  | c :: rest => by
    simp only [pySplit]
    split
    · simp
    · cases h : pySplit sep rest with
      | nil => simp
      | cons p ps => simp

theorem pySplit_sep_cons (sep : Char) (l : List Char) :
    pySplit sep (sep :: l) = [] :: pySplit sep l := by
  simp [pySplit]

theorem pySplit_append_no_sep (sep : Char) :
    ∀ (p l : List Char) (q : List Char) (qs : List (List Char)),
      sep ∉ p → pySplit sep l = q :: qs → pySplit sep (p ++ l) = (p ++ q) :: qs
  | [], l, q, qs, _, hl => by simpa using hl
  | c :: p, l, q, qs, hp, hl => by
    have hc : ¬ c = sep := by
      intro h; exact hp (by simp [h])
    have ih := pySplit_append_no_sep sep p l q qs (fun h => hp (List.mem_cons_of_mem _ h)) hl
    simp only [List.cons_append, pySplit, if_neg hc, List.append_eq, ih]

theorem pySplit_joinSep (sep : Char) :
    ∀ parts : List (List Char), parts ≠ [] → (∀ p ∈ parts, sep ∉ p) →
      pySplit sep (joinSep sep parts) = parts
  | [], h, _ => absurd rfl h
  | [p], _, hp => by
    have := pySplit_append_no_sep sep p [] [] [] (hp p (by simp)) (by simp [pySplit])
    simpa [joinSep] using this
  | p :: q :: rest, _, hp => by
    have ih := pySplit_joinSep sep (q :: rest) (by simp)
      (fun t ht => hp t (List.mem_cons_of_mem _ ht))
    have hsep : pySplit sep (sep :: joinSep sep (q :: rest)) = [] :: q :: rest := by
      rw [pySplit_sep_cons, ih]
    have := pySplit_append_no_sep sep p (sep :: joinSep sep (q :: rest)) [] (q :: rest)
      (hp p (by simp)) hsep
    simpa [joinSep] using this

/-- `get_image` as a lookup of the derived image file name. -/
def imageFileName (annName : List Char) : List Char :=
  joinSep '_' ((pySplit '_' annName).dropLast) ++ ['.', 'j', 'p', 'g']

theorem get_image_eq (fs : FileSystem) (annName : List Char) :
    get_image fs annName =
      (fs (imageFileName annName)).map (fun img => (img, imageFileName annName)) := by
  unfold get_image imageFileName
  cases h : fs (joinSep '_' ((pySplit '_' annName).dropLast) ++ ['.', 'j', 'p', 'g']) <;>
    simp [h]

/-- C4: the resolved image name for a stem built from underscore-free tokens
is all tokens but the last, rejoined with underscores, plus `".jpg"`. -/
theorem resolved_image_name (ts : List (List Char)) (suffix : List Char)
    (h : ∀ t ∈ ts ++ [suffix], '_' ∉ t) (fs : FileSystem) :
    imageFileName (joinSep '_' (ts ++ [suffix])) =
      joinSep '_' ts ++ ['.', 'j', 'p', 'g'] ∧
    get_image fs (joinSep '_' (ts ++ [suffix])) =
      (fs (joinSep '_' ts ++ ['.', 'j', 'p', 'g'])).map
        (fun img => (img, joinSep '_' ts ++ ['.', 'j', 'p', 'g'])) := by
  have hs : pySplit '_' (joinSep '_' (ts ++ [suffix])) = ts ++ [suffix] :=
    pySplit_joinSep '_' (ts ++ [suffix]) (by simp) h
  have hname : imageFileName (joinSep '_' (ts ++ [suffix])) =
      joinSep '_' ts ++ ['.', 'j', 'p', 'g'] := by
    unfold imageFileName
    rw [hs, List.dropLast_concat]
  refine ⟨hname, ?_⟩
  rw [get_image_eq, hname]

theorem resolved_image_name_witness :
    imageFileName (joinSep '_' ([['S'], ['T'], ['U']] ++ [['s', 'f', 'x']])) =
      joinSep '_' [['S'], ['T'], ['U']] ++ ['.', 'j', 'p', 'g'] ∧
    get_image (fun _ => none) (joinSep '_' ([['S'], ['T'], ['U']] ++ [['s', 'f', 'x']])) =
      ((fun _ => none : FileSystem) (joinSep '_' [['S'], ['T'], ['U']] ++ ['.', 'j', 'p', 'g'])).map
        (fun img => (img, joinSep '_' [['S'], ['T'], ['U']] ++ ['.', 'j', 'p', 'g'])) :=
  resolved_image_name [['S'], ['T'], ['U']] ['s', 'f', 'x'] (by decide) (fun _ => none)

/-- C5: when the resolved image file is absent, `get_image` returns the
not-found sentinel and the run skips the file, continuing with the rest. -/
theorem missing_image_skips (pred : Predictor) (getPoly : PolyExtractor) (fs : FileSystem)
    (stem : List Char) (rows : List AnnRow)
    (rest : List (List Char × List AnnRow))
    (h : fs (imageFileName stem) = none) :
    get_image fs stem = none ∧
    processAnnFile pred getPoly fs stem rows = none ∧
    runPipeline pred getPoly fs ((stem, rows) :: rest) = runPipeline pred getPoly fs rest := by
  have hg : get_image fs stem = none := by rw [get_image_eq, h]; rfl
  have hp : processAnnFile pred getPoly fs stem rows = none := by
    unfold processAnnFile; rw [hg]
  refine ⟨hg, hp, ?_⟩
  show (match processAnnFile pred getPoly fs stem rows with
    | none => runPipeline pred getPoly fs rest
    | some out => out :: runPipeline pred getPoly fs rest) = runPipeline pred getPoly fs rest
  rw [hp]

theorem missing_image_skips_witness :
    get_image (fun _ => none) ['a', '_', 'b'] = none ∧
    processAnnFile (fun _ _ _ => ([], [])) (fun _ => []) (fun _ => none)
      ['a', '_', 'b'] [⟨1, 2, []⟩] = none ∧
    runPipeline (fun _ _ _ => ([], [])) (fun _ => []) (fun _ => none)
      ((['a', '_', 'b'], [⟨1, 2, []⟩]) :: []) =
      runPipeline (fun _ _ _ => ([], [])) (fun _ => []) (fun _ => none) [] :=
  missing_image_skips (fun _ _ _ => ([], [])) (fun _ => []) (fun _ => none)
    ['a', '_', 'b'] [⟨1, 2, []⟩] [] rfl

/-- C10: a stem with no underscore splits into one token, the final-token
drop leaves nothing, so the resolver looks up the bare `".jpg"`; when that
file is absent the annotation file is skipped without error. -/
theorem no_underscore_stem (pred : Predictor) (getPoly : PolyExtractor) (fs : FileSystem)
    (stem : List Char) (rows : List AnnRow) (rest : List (List Char × List AnnRow))
    (hstem : '_' ∉ stem) (hfs : fs ['.', 'j', 'p', 'g'] = none) :
    joinSep '_' ((pySplit '_' stem).dropLast) = [] ∧
    imageFileName stem = ['.', 'j', 'p', 'g'] ∧
    get_image fs stem = none ∧
    runPipeline pred getPoly fs ((stem, rows) :: rest) = runPipeline pred getPoly fs rest := by
  have hsplit : pySplit '_' stem = [stem] := by
    have := pySplit_append_no_sep '_' stem [] [] [] hstem (by simp [pySplit])
    simpa using this
  have hempty : joinSep '_' ((pySplit '_' stem).dropLast) = [] := by
    rw [hsplit]; rfl
  have hname : imageFileName stem = ['.', 'j', 'p', 'g'] := by
    unfold imageFileName; rw [hempty]; rfl
  have hg : get_image fs stem = none := by
    rw [get_image_eq, hname, hfs]; rfl
  have hp : processAnnFile pred getPoly fs stem rows = none := by
    unfold processAnnFile; rw [hg]
  refine ⟨hempty, hname, hg, ?_⟩
  show (match processAnnFile pred getPoly fs stem rows with
    | none => runPipeline pred getPoly fs rest
    | some out => out :: runPipeline pred getPoly fs rest) = runPipeline pred getPoly fs rest
  rw [hp]

theorem no_underscore_stem_witness :
    joinSep '_' ((pySplit '_' ['i', 'm', 'g']).dropLast) = [] ∧
    imageFileName ['i', 'm', 'g'] = ['.', 'j', 'p', 'g'] ∧
    get_image (fun _ => none) ['i', 'm', 'g'] = none ∧
    runPipeline (fun _ _ _ => ([], [])) (fun _ => []) (fun _ => none)
      ((['i', 'm', 'g'], ([] : List AnnRow)) :: []) =
      runPipeline (fun _ _ _ => ([], [])) (fun _ => []) (fun _ => none) [] :=
  no_underscore_stem (fun _ _ _ => ([], [])) (fun _ => []) (fun _ => none)
    ['i', 'm', 'g'] [] [] (by decide) rfl

/-! ## Lemmas about the output-writing loop -/

theorem writeLoop_lengths (getPoly : PolyExtractor) (saveDir imgFileName : List Char)
    (lastRow : AnnRow) :
    ∀ (i : Nat) (ms : List (List Mask)),
      (writeLoop getPoly saveDir imgFileName lastRow i ms).1.length = ms.length ∧
      (writeLoop getPoly saveDir imgFileName lastRow i ms).2.length = ms.length
  | _, [] => ⟨rfl, rfl⟩
  | i, m :: rest => by
    have ih := writeLoop_lengths getPoly saveDir imgFileName lastRow (i + 1) rest
    simp only [writeLoop, List.length_cons, ih.1, ih.2, and_self]

theorem writeLoop_mask_ids (getPoly : PolyExtractor) (saveDir imgFileName : List Char)
    (lastRow : AnnRow) :
    ∀ (i : Nat) (ms : List (List Mask)),
      (writeLoop getPoly saveDir imgFileName lastRow i ms).2.map TableRow.mask_id =
        (List.range ms.length).map (fun k => pad3 (i + k + 1))
  | _, [] => rfl
  | i, m :: rest => by
    have ih := writeLoop_mask_ids getPoly saveDir imgFileName lastRow (i + 1) rest
    simp only [writeLoop, List.map_cons, ih, List.length_cons, List.range_succ_eq_map,
      List.map_map]
    refine congrArg₂ _ (by rw [Nat.add_zero]) (List.map_congr_left fun k _ => ?_)
    simp only [Function.comp_apply]
    congr 1
    omega

theorem writeLoop_names (getPoly : PolyExtractor) (saveDir imgFileName : List Char)
    (lastRow : AnnRow) :
    ∀ (i : Nat) (ms : List (List Mask)),
      (writeLoop getPoly saveDir imgFileName lastRow i ms).1.map MaskFile.name =
        (List.range ms.length).map (fun k => pad3 (i + k + 1) ++ ['.', 'p', 'n', 'g'])
  | _, [] => rfl
  | i, m :: rest => by
    have ih := writeLoop_names getPoly saveDir imgFileName lastRow (i + 1) rest
    simp only [writeLoop, List.map_cons, ih, List.length_cons, List.range_succ_eq_map,
      List.map_map]
    refine congrArg₂ _ (by rw [Nat.add_zero]) (List.map_congr_left fun k _ => ?_)
    simp only [Function.comp_apply]
    congr 2
    omega

theorem writeLoop_mem_fst (getPoly : PolyExtractor) (saveDir imgFileName : List Char)
    (lastRow : AnnRow) :
    ∀ (i : Nat) (ms : List (List Mask)) (mf : MaskFile),
      mf ∈ (writeLoop getPoly saveDir imgFileName lastRow i ms).1 →
      mf.dir = saveDir ∧
      (∃ k, k < ms.length ∧ mf.name = pad3 (i + k + 1) ++ ['.', 'p', 'n', 'g']) ∧
      ∃ m ∈ ms, mf.pixels = maskPixels (m.getD 0 [])
  | i, [], mf, h => absurd h (by simp [writeLoop])
  | i, m :: rest, mf, h => by
    simp only [writeLoop, List.mem_cons] at h
    rcases h with h | h
    · subst h
      exact ⟨rfl, ⟨0, by simp, by rw [Nat.add_zero]⟩, ⟨m, by simp, rfl⟩⟩
    · obtain ⟨hdir, ⟨k, hk, hname⟩, m2, hm2, hpix⟩ :=
        writeLoop_mem_fst getPoly saveDir imgFileName lastRow (i + 1) rest mf h
      refine ⟨hdir, ⟨k + 1, by simpa using Nat.succ_lt_succ hk, ?_⟩,
        ⟨m2, List.mem_cons_of_mem _ hm2, hpix⟩⟩
      rw [hname]
      congr 2
      omega

/-- `processAnnFile` on a resolved image, unfolded to its writing loop. -/
theorem processAnnFile_some (pred : Predictor) (getPoly : PolyExtractor) (fs : FileSystem)
    (stem : List Char) (rows : List AnnRow) (img : Image) (imgFile : List Char)
    (h : get_image fs stem = some (img, imgFile)) :
    processAnnFile pred getPoly fs stem rows =
      some (imgFile,
        writeLoop getPoly (pyStem imgFile) imgFile (rows.getLastD ⟨0, 0, []⟩) 0
          ((rows.map (predictPoint pred img)).map (fun t => t.2.1))) := by
  unfold processAnnFile
  rw [h]

/-- C3: a resolved annotation file with `N` rows yields exactly `N` mask
rasters and exactly `N` table rows, with `mask_id` (and raster names)
running through the zero-padded ordinals `001, 002, ...` in input order. -/
theorem output_counts_and_ids (pred : Predictor) (getPoly : PolyExtractor) (fs : FileSystem)
    (stem : List Char) (rows : List AnnRow) (img : Image) (imgFile : List Char)
    (h : get_image fs stem = some (img, imgFile)) :
    ∃ mfs trs, processAnnFile pred getPoly fs stem rows = some (imgFile, mfs, trs) ∧
      mfs.length = rows.length ∧ trs.length = rows.length ∧
      trs.map TableRow.mask_id = (List.range rows.length).map (fun k => pad3 (k + 1)) ∧
      mfs.map MaskFile.name =
        (List.range rows.length).map (fun k => pad3 (k + 1) ++ ['.', 'p', 'n', 'g']) := by
  have hp := processAnnFile_some pred getPoly fs stem rows img imgFile h
  set ms := (rows.map (predictPoint pred img)).map (fun t => t.2.1) with hms
  have hlen : ms.length = rows.length := by simp [hms]
  refine ⟨_, _, hp, ?_, ?_, ?_, ?_⟩
  · rw [(writeLoop_lengths getPoly (pyStem imgFile) imgFile (rows.getLastD ⟨0, 0, []⟩) 0 ms).1,
      hlen]
  · rw [(writeLoop_lengths getPoly (pyStem imgFile) imgFile (rows.getLastD ⟨0, 0, []⟩) 0 ms).2,
      hlen]
  · rw [writeLoop_mask_ids getPoly (pyStem imgFile) imgFile (rows.getLastD ⟨0, 0, []⟩) 0 ms,
      hlen]
    exact List.map_congr_left fun k _ => by rw [Nat.zero_add]
  · rw [writeLoop_names getPoly (pyStem imgFile) imgFile (rows.getLastD ⟨0, 0, []⟩) 0 ms, hlen]
    exact List.map_congr_left fun k _ => by rw [Nat.zero_add]

theorem output_counts_and_ids_witness :
    ∃ mfs trs,
      processAnnFile (fun _ _ _ => ([[[true]]], [1])) (fun _ => [0])
          (fun f => if f = ['a', '.', 'j', 'p', 'g'] then some [[(0, 0, 0)]] else none)
          ['a', '_', 'p'] [⟨1, 2, []⟩, ⟨3, 4, []⟩] =
        some (['a', '.', 'j', 'p', 'g'], mfs, trs) ∧
      mfs.length = ([⟨1, 2, []⟩, ⟨3, 4, []⟩] : List AnnRow).length ∧
      trs.length = ([⟨1, 2, []⟩, ⟨3, 4, []⟩] : List AnnRow).length ∧
      trs.map TableRow.mask_id =
        (List.range ([⟨1, 2, []⟩, ⟨3, 4, []⟩] : List AnnRow).length).map
          (fun k => pad3 (k + 1)) ∧
      mfs.map MaskFile.name =
        (List.range ([⟨1, 2, []⟩, ⟨3, 4, []⟩] : List AnnRow).length).map
          (fun k => pad3 (k + 1) ++ ['.', 'p', 'n', 'g']) :=
  output_counts_and_ids (fun _ _ _ => ([[[true]]], [1])) (fun _ => [0])
    (fun f => if f = ['a', '.', 'j', 'p', 'g'] then some [[(0, 0, 0)]] else none)
    ['a', '_', 'p'] [⟨1, 2, []⟩, ⟨3, 4, []⟩] [[(0, 0, 0)]] ['a', '.', 'j', 'p', 'g']
    (by decide)

/-- C7: every persisted mask raster lives in the directory named after the
source image stem, is named by its zero-padded 1-based ordinal with the
`.png` extension, and its pixels are exactly 0 or 255. -/
theorem mask_raster_format (pred : Predictor) (getPoly : PolyExtractor) (fs : FileSystem)
    (stem : List Char) (rows : List AnnRow) (imgFile : List Char)
    (mfs : List MaskFile) (trs : List TableRow) (mf : MaskFile)
    (h : processAnnFile pred getPoly fs stem rows = some (imgFile, mfs, trs))
    (hm : mf ∈ mfs) :
    mf.dir = pyStem imgFile ∧
    (∃ k, 1 ≤ k ∧ k ≤ rows.length ∧ mf.name = pad3 k ++ ['.', 'p', 'n', 'g']) ∧
    ∀ prow ∈ mf.pixels, ∀ v ∈ prow, v = 0 ∨ v = 255 := by
  cases hg : get_image fs stem with
  | none =>
    rw [processAnnFile, hg] at h
    exact absurd h (by simp)
  | some p =>
    obtain ⟨img, f⟩ := p
    rw [processAnnFile_some pred getPoly fs stem rows img f hg] at h
    have h2 := Option.some.inj h
    have hf : f = imgFile := congrArg Prod.fst h2
    have hmfs :
        ((writeLoop getPoly (pyStem f) f (rows.getLastD ⟨0, 0, []⟩) 0
          ((rows.map (predictPoint pred img)).map (fun t => t.2.1)))).1 = mfs :=
      congrArg (fun q => q.2.1) h2
    subst hf
    rw [← hmfs] at hm
    obtain ⟨hdir, ⟨k, hk, hname⟩, m2, _, hpix⟩ :=
      writeLoop_mem_fst getPoly (pyStem f) f (rows.getLastD ⟨0, 0, []⟩) 0
        _ mf hm
    have hklen : k < rows.length := by simpa using hk
    refine ⟨hdir, ⟨k + 1, Nat.le_add_left 1 k, hklen, by rw [hname]; congr 2; omega⟩, ?_⟩
    rw [hpix]
    intro prow hprow v hv
    simp only [maskPixels, List.mem_map] at hprow
    obtain ⟨brow, _, hbrow⟩ := hprow
    rw [← hbrow] at hv
    simp only [List.mem_map] at hv
    obtain ⟨b, _, hb⟩ := hv
    cases b <;> simp_all

theorem mask_raster_format_witness :
    (⟨['a'], ['0', '0', '1', '.', 'p', 'n', 'g'], [[255]]⟩ : MaskFile).dir =
      pyStem ['a', '.', 'j', 'p', 'g'] ∧
    (∃ k, 1 ≤ k ∧ k ≤ ([⟨1, 2, []⟩] : List AnnRow).length ∧
      (⟨['a'], ['0', '0', '1', '.', 'p', 'n', 'g'], [[255]]⟩ : MaskFile).name =
        pad3 k ++ ['.', 'p', 'n', 'g']) ∧
    ∀ prow ∈ (⟨['a'], ['0', '0', '1', '.', 'p', 'n', 'g'], [[255]]⟩ : MaskFile).pixels,
      ∀ v ∈ prow, v = 0 ∨ v = 255 :=
  mask_raster_format (fun _ _ _ => ([[[true]]], [1])) (fun _ => [0])
    (fun f => if f = ['a', '.', 'j', 'p', 'g'] then some [[(0, 0, 0)]] else none)
    ['a', '_', 'p'] [⟨1, 2, []⟩] ['a', '.', 'j', 'p', 'g']
    [⟨['a'], ['0', '0', '1', '.', 'p', 'n', 'g'], [[255]]⟩]
    [⟨['a', '.', 'j', 'p', 'g'], ['[', '1', ',', ' ', '2', ']'], ['0', '0', '1'],
      ['[', '0', ']']⟩]
    ⟨['a'], ['0', '0', '1', '.', 'p', 'n', 'g'], [[255]]⟩
    (by decide) (by decide)

/-! ## Label independence -/

/-- The point coordinates of an annotation row, without its label. -/
def xyProj (r : AnnRow) : Int × Int := (r.x, r.y)

theorem predictPoint_congr (predA predB : Predictor) (img : Image) (r r' : AnnRow)
    (hpred : ∀ p, predA img p (List.replicate 1 1) = predB img p (List.replicate 1 1))
    (hxy : xyProj r = xyProj r') :
    predictPoint predA img r = predictPoint predB img r' := by
  have hx : r.x = r'.x := congrArg Prod.fst hxy
  have hy : r.y = r'.y := congrArg Prod.snd hxy
  simp only [predictPoint, hx, hy, hpred]

theorem map_predictPoint_congr (predA predB : Predictor) (img : Image)
    (hpred : ∀ p, predA img p (List.replicate 1 1) = predB img p (List.replicate 1 1)) :
    ∀ (rows rows' : List AnnRow), rows.map xyProj = rows'.map xyProj →
      rows.map (predictPoint predA img) = rows'.map (predictPoint predB img)
  | [], rows', h => by
    have : rows' = [] := by
      cases rows' with
      | nil => rfl
      | cons r t => simp at h
    simp [this]
  | r :: t, rows', h => by
    cases rows' with
    | nil => simp at h
    | cons r' t' =>
      simp only [List.map_cons, List.cons.injEq] at h ⊢
      exact ⟨predictPoint_congr predA predB img r r' hpred h.1,
        map_predictPoint_congr predA predB img hpred t t' h.2⟩

theorem xyProj_getLastD :
    ∀ (l l' : List AnnRow) (d d' : AnnRow), l.map xyProj = l'.map xyProj →
      xyProj d = xyProj d' → xyProj (l.getLastD d) = xyProj (l'.getLastD d')
  | [], l', d, d', h, hd => by
    cases l' with
    | nil => exact hd
    | cons r t => simp at h
  | r :: t, l', d, d', h, hd => by
    cases l' with
    | nil => simp at h
    | cons r' t' =>
      simp only [List.map_cons, List.cons.injEq] at h
      rw [List.getLastD_cons, List.getLastD_cons]
      exact xyProj_getLastD t t' r r' h.2 h.1

theorem writeLoop_lastRow_congr (getPoly : PolyExtractor) (saveDir imgFileName : List Char)
    (lastA lastB : AnnRow) (hxy : xyProj lastA = xyProj lastB) :
    ∀ (i : Nat) (ms : List (List Mask)),
      writeLoop getPoly saveDir imgFileName lastA i ms =
        writeLoop getPoly saveDir imgFileName lastB i ms
  | _, [] => rfl
  | i, m :: rest => by
    have hx : lastA.x = lastB.x := congrArg Prod.fst hxy
    have hy : lastA.y = lastB.y := congrArg Prod.snd hxy
    simp only [writeLoop, hx, hy,
      writeLoop_lastRow_congr getPoly saveDir imgFileName lastA lastB hxy (i + 1) rest]

theorem processAnnFile_label_congr (predA predB : Predictor) (getPoly : PolyExtractor)
    (fs : FileSystem) (stem : List Char) (rows rows' : List AnnRow)
    (hpred : ∀ img p, predA img p (List.replicate 1 1) = predB img p (List.replicate 1 1))
    (hxy : rows.map xyProj = rows'.map xyProj) :
    processAnnFile predA getPoly fs stem rows = processAnnFile predB getPoly fs stem rows' := by
  cases hg : get_image fs stem with
  | none => rw [processAnnFile, hg, processAnnFile, hg]
  | some p =>
    obtain ⟨img, f⟩ := p
    rw [processAnnFile_some predA getPoly fs stem rows img f hg,
      processAnnFile_some predB getPoly fs stem rows' img f hg,
      map_predictPoint_congr predA predB img (fun q => hpred img q) rows rows' hxy,
      writeLoop_lastRow_congr getPoly (pyStem f) f (rows.getLastD ⟨0, 0, []⟩)
        (rows'.getLastD ⟨0, 0, []⟩) (xyProj_getLastD rows rows' ⟨0, 0, []⟩ ⟨0, 0, []⟩ hxy rfl)]

/-- C6: annotation labels never influence the computation. Any two runs on
annotation file lists that agree on stems and point coordinates (labels
free to differ), under predictors that agree on single positive-label
prompts (the only prompts the pipeline ever issues), produce identical
outputs. -/
theorem labels_never_influence_outputs (predA predB : Predictor) (getPoly : PolyExtractor)
    (fs : FileSystem) (filesA filesB : List (List Char × List AnnRow))
    (hpred : ∀ img p, predA img p (List.replicate 1 1) = predB img p (List.replicate 1 1))
    (hfiles : List.Forall₂
      (fun a b => a.1 = b.1 ∧ a.2.map xyProj = b.2.map xyProj) filesA filesB) :
    runPipeline predA getPoly fs filesA = runPipeline predB getPoly fs filesB := by
  induction hfiles with
  | nil => rfl
  | @cons a b l₁ l₂ hab htail ih =>
    obtain ⟨sa, ra⟩ := a
    obtain ⟨sb, rb⟩ := b
    obtain ⟨hstem, hrows⟩ := hab
    simp only at hstem hrows
    subst hstem
    simp only [runPipeline]
    rw [processAnnFile_label_congr predA predB getPoly fs sa ra rb hpred hrows, ih]

theorem labels_never_influence_outputs_witness :
    runPipeline (fun _ _ _ => ([[[true]]], [1])) (fun _ => [0])
      (fun f => if f = ['a', '.', 'j', 'p', 'g'] then some [[(0, 0, 0)]] else none)
      [(['a', '_', 'p'], [⟨1, 2, ['n', 'e', 'g']⟩])] =
    runPipeline (fun _ _ _ => ([[[true]]], [1])) (fun _ => [0])
      (fun f => if f = ['a', '.', 'j', 'p', 'g'] then some [[(0, 0, 0)]] else none)
      [(['a', '_', 'p'], [⟨1, 2, ['p', 'o', 's']⟩])] :=
  labels_never_influence_outputs (fun _ _ _ => ([[[true]]], [1]))
    (fun _ _ _ => ([[[true]]], [1])) (fun _ => [0])
    (fun f => if f = ['a', '.', 'j', 'p', 'g'] then some [[(0, 0, 0)]] else none)
    [(['a', '_', 'p'], [⟨1, 2, ['n', 'e', 'g']⟩])]
    [(['a', '_', 'p'], [⟨1, 2, ['p', 'o', 's']⟩])]
    (fun _ _ => rfl)
    (List.Forall₂.cons ⟨rfl, rfl⟩ List.Forall₂.nil)

/-! ## Malformed annotation rows -/

theorem readAnns_none :
    ∀ (lines : List (List Char)) (l : List Char), l ∈ lines → parseAnnLine l = none →
      readAnns lines = none
  | [], l, hl, _ => absurd hl (by simp)
  | hd :: tl, l, hl, hparse => by
    rcases List.mem_cons.mp hl with h | h
    · subst h
      rw [readAnns, hparse]
    · rw [readAnns, readAnns_none tl l h hparse]
      cases parseAnnLine hd <;> rfl

/-- C9: when an annotation file whose image resolves contains a malformed
row (its `x` or `y` fails numeric parsing), the parse failure is not caught:
the run halts at that file, regardless of the files after it. -/
theorem malformed_row_halts (pred : Predictor) (getPoly : PolyExtractor) (fs : FileSystem)
    (stem : List Char) (lines : List (List Char))
    (rest : List (List Char × List (List Char))) (img : Image) (imgFile : List Char)
    (l : List Char)
    (hg : get_image fs stem = some (img, imgFile))
    (hl : l ∈ lines) (hparse : parseAnnLine l = none) :
    runPipelineE pred getPoly fs ((stem, lines) :: rest) = Except.error stem := by
  have hr : readAnns lines = none := readAnns_none lines l hl hparse
  simp only [runPipelineE, hg, hr]

theorem malformed_row_halts_witness :
    runPipelineE (fun _ _ _ => ([[[true]]], [1])) (fun _ => [0])
      (fun f => if f = ['a', '.', 'j', 'p', 'g'] then some [[(0, 0, 0)]] else none)
      ((['a', '_', 'p'], [['1', '\t', 'o', 'o', 'p', 's', '\t', 'l']]) ::
        [(['a', '_', 'q'], [])]) =
      Except.error ['a', '_', 'p'] :=
  malformed_row_halts (fun _ _ _ => ([[[true]]], [1])) (fun _ => [0])
    (fun f => if f = ['a', '.', 'j', 'p', 'g'] then some [[(0, 0, 0)]] else none)
    ['a', '_', 'p'] [['1', '\t', 'o', 'o', 'p', 's', '\t', 'l']]
    [(['a', '_', 'q'], [])] [[(0, 0, 0)]] ['a', '.', 'j', 'p', 'g']
    ['1', '\t', 'o', 'o', 'p', 's', '\t', 'l']
    (by decide) (by decide) (by decide)

/-! ## Decimal rendering and parsing round-trip -/

theorem digitChar_isDigit {d : Nat} (h : d < 10) : (digitChar d).isDigit = true := by
  interval_cases d <;> decide

theorem charVal_digitChar {d : Nat} (h : d < 10) : charVal (digitChar d) = d := by
  interval_cases d <;> decide

theorem renderNatAux_eq : ∀ (fuel n : Nat), n ≤ fuel →
    renderNatAux fuel n = ((Nat.digits 10 n).map digitChar).reverse
  | 0, 0, _ => by simp [renderNatAux]
  | _ + 1, 0, _ => by simp [renderNatAux]
  | 0, n + 1, h => absurd h (by omega)
  | fuel + 1, n + 1, h => by
    have hdiv : (n + 1) / 10 ≤ fuel := by
      have := Nat.div_lt_self (Nat.succ_pos n) (by omega : 1 < 10)
      omega
    rw [renderNatAux, renderNatAux_eq fuel ((n + 1) / 10) hdiv,
      Nat.digits_def' (by omega : 1 < 10) (Nat.succ_pos n)]
    simp

theorem renderNat_eq {n : Nat} (h : n ≠ 0) :
    renderNat n = ((Nat.digits 10 n).map digitChar).reverse := by
  rw [renderNat, if_neg h]
  exact renderNatAux_eq n n le_rfl

theorem renderNat_ne_nil (n : Nat) : renderNat n ≠ [] := by
  by_cases h : n = 0
  · subst h; decide
  · rw [renderNat_eq h]
    simp [Nat.digits_ne_nil_iff_ne_zero.mpr h]

theorem renderNat_all_digits (n : Nat) : ∀ c ∈ renderNat n, c.isDigit = true := by
  by_cases h : n = 0
  · subst h; decide
  · rw [renderNat_eq h]
    intro c hc
    simp only [List.mem_reverse, List.mem_map] at hc
    obtain ⟨d, hd, rfl⟩ := hc
    exact digitChar_isDigit (Nat.digits_lt_base (by omega) hd)

theorem foldr_digits_map : ∀ L : List Nat, (∀ d ∈ L, d < 10) →
    (L.map digitChar).foldr (fun c a => 10 * a + charVal c) 0 = Nat.ofDigits 10 L
  | [], _ => rfl
  | d :: L, h => by
    simp only [List.map_cons, List.foldr_cons,
      foldr_digits_map L (fun e he => h e (List.mem_cons_of_mem _ he)),
      charVal_digitChar (h d (List.mem_cons_self d L)), Nat.ofDigits_cons]
    omega

theorem foldl_renderNat (n : Nat) :
    (renderNat n).foldl (fun a c => 10 * a + charVal c) 0 = n := by
  by_cases h : n = 0
  · subst h; decide
  · rw [renderNat_eq h, List.foldl_reverse]
    have := foldr_digits_map (Nat.digits 10 n)
      (fun d hd => Nat.digits_lt_base (by omega) hd)
    simpa [Nat.ofDigits_digits] using this

theorem parseDigitsAux_digits :
    ∀ (ds rest : List Char) (acc : Nat),
      (∀ c ∈ ds, c.isDigit = true) →
      (∀ c, rest.head? = some c → c.isDigit = false) →
      parseDigitsAux (ds ++ rest) acc =
        (ds.foldl (fun a c => 10 * a + charVal c) acc, rest)
  | [], [], acc, _, _ => rfl
  | [], c :: r, acc, _, hrest => by
    simp only [List.nil_append, List.foldl_nil, parseDigitsAux, hrest c rfl]
    simp
  | c :: ds, rest, acc, hds, hrest => by
    simp only [List.cons_append, parseDigitsAux, hds c (List.mem_cons_self c ds), if_true,
      List.foldl_cons]
    exact parseDigitsAux_digits ds rest (10 * acc + charVal c)
      (fun e he => hds e (List.mem_cons_of_mem _ he)) hrest

theorem parseNat_render (n : Nat) (rest : List Char)
    (hrest : ∀ c, rest.head? = some c → c.isDigit = false) :
    parseNat (renderNat n ++ rest) = some (n, rest) := by
  obtain ⟨c, ds, hcds⟩ := List.exists_cons_of_ne_nil (renderNat_ne_nil n)
  have hc : c.isDigit = true := renderNat_all_digits n c (by rw [hcds]; exact List.mem_cons_self c ds)
  have hds : ∀ e ∈ ds, e.isDigit = true := fun e he =>
    renderNat_all_digits n e (by rw [hcds]; exact List.mem_cons_of_mem _ he)
  have hfold : ds.foldl (fun a c => 10 * a + charVal c) (charVal c) = n := by
    have h0 : charVal c = 10 * 0 + charVal c := by omega
    have := foldl_renderNat n
    rw [hcds, List.foldl_cons] at this
    simpa using this
  rw [hcds, List.cons_append, parseNat, if_pos hc,
    parseDigitsAux_digits ds rest (charVal c) hds hrest, hfold]

theorem parseInt_render (i : Int) (rest : List Char)
    (hrest : ∀ c, rest.head? = some c → c.isDigit = false) :
    parseInt (renderInt i ++ rest) = some (i, rest) := by
  by_cases hneg : i < 0
  · rw [renderInt, if_pos hneg, List.cons_append, parseInt, if_pos rfl,
      parseNat_render i.natAbs rest hrest]
    have hi : -(i.natAbs : Int) = i := by omega
    show some (-(i.natAbs : Int), rest) = some (i, rest)
    rw [hi]
  · rw [renderInt, if_neg hneg]
    obtain ⟨c, ds, hcds⟩ := List.exists_cons_of_ne_nil (renderNat_ne_nil i.toNat)
    have hc : c.isDigit = true :=
      renderNat_all_digits i.toNat c (by rw [hcds]; exact List.mem_cons_self c ds)
    have hcne : ¬ c = '-' := by
      intro heq
      rw [heq] at hc
      exact absurd hc (by decide)
    have hmain : parseNat (renderNat i.toNat ++ rest) = some (i.toNat, rest) :=
      parseNat_render i.toNat rest hrest
    rw [hcds] at hmain ⊢
    rw [List.cons_append, parseInt, if_neg hcne, ← List.cons_append, hmain]
    have hi : (i.toNat : Int) = i := by omega
    show some ((i.toNat : Int), rest) = some (i, rest)
    rw [hi]

theorem head_not_digit_bracket :
    ∀ c : Char, (List.head? (']' :: ([] : List Char)) = some c) → c.isDigit = false := by
  intro c h
  cases h
  decide

theorem head_not_digit_comma (r : List Char) :
    ∀ c : Char, (List.head? (',' :: ' ' :: r) = some c) → c.isDigit = false := by
  intro c h
  cases h
  decide

theorem parseItems_render :
    ∀ (xs : List Int) (x : Int) (fuel : Nat), xs.length < fuel →
      parseItems fuel (joinCommaSpace ((x :: xs).map renderInt) ++ [']']) = some (x :: xs)
  | _, _, 0, h => absurd h (by omega)
  | [], x, fuel + 1, _ => by
    show parseItems (fuel + 1) (joinCommaSpace [renderInt x] ++ [']']) = some [x]
    rw [joinCommaSpace, parseItems, parseInt_render x [']'] head_not_digit_bracket]
    rfl
  | y :: tl, x, fuel + 1, h => by
    show parseItems (fuel + 1)
      (joinCommaSpace (renderInt x :: (y :: tl).map renderInt) ++ [']']) = _
    have hjoin : joinCommaSpace (renderInt x :: (y :: tl).map renderInt) ++ [']'] =
        renderInt x ++
          (',' :: ' ' :: (joinCommaSpace ((y :: tl).map renderInt) ++ [']'])) := by
      rw [List.map_cons, joinCommaSpace]
      simp
    rw [hjoin, parseItems,
      parseInt_render x (',' :: ' ' :: (joinCommaSpace ((y :: tl).map renderInt) ++ [']']))
        (head_not_digit_comma _)]
    show (parseItems fuel (joinCommaSpace ((y :: tl).map renderInt) ++ [']'])).map
      (fun t => x :: t) = some (x :: y :: tl)
    rw [parseItems_render tl y fuel (by simpa using Nat.lt_of_succ_lt_succ h)]
    rfl

theorem renderInt_ne_nil (i : Int) : renderInt i ≠ [] := by
  rw [renderInt]
  split
  · simp
  · exact renderNat_ne_nil i.toNat

theorem length_le_joinCommaSpace :
    ∀ l : List Int, l.length ≤ (joinCommaSpace (l.map renderInt)).length
  | [] => by simp [joinCommaSpace]
  | [x] => by
    have := List.length_pos.mpr (renderInt_ne_nil x)
    simpa [joinCommaSpace] using this
  | x :: y :: tl => by
    have ih := length_le_joinCommaSpace (y :: tl)
    have hx := List.length_pos.mpr (renderInt_ne_nil x)
    simp only [List.map_cons, joinCommaSpace, List.length_append, List.length_cons] at ih ⊢
    omega

/-- C8: polygon (and prompt) serialization round-trips. The textual form the
notebook writes for a flattened coordinate list, re-parsed, yields the same
coordinate sequence. -/
theorem polygon_roundtrip : ∀ l : List Int, parsePyIntList (pyListRepr l) = some l
  | [] => rfl
  | x :: xs => by
    have hlen : xs.length <
        (joinCommaSpace ((x :: xs).map renderInt) ++ [']']).length := by
      have := length_le_joinCommaSpace (x :: xs)
      simp only [List.length_append, List.length_cons, List.length_singleton] at this ⊢
      omega
    have hne : joinCommaSpace ((x :: xs).map renderInt) ++ [']'] ≠ [']'] := by
      intro heq
      have h1 := length_le_joinCommaSpace (x :: xs)
      have h2 := congrArg List.length heq
      simp only [List.length_append, List.length_cons, List.length_singleton] at h1 h2
      omega
    rw [pyListRepr, parsePyIntList]
    simp only [if_neg hne]
    exact parseItems_render xs x _ hlen

/-! ## Mask selection: maximum score, ties broken by last occurrence -/

instance scoreLeTotal (s : List Int) :
    IsTotal Nat (fun i j => s.getD i 0 ≤ s.getD j 0) :=
  ⟨fun _ _ => Int.le_total _ _⟩

instance scoreLeTrans (s : List Int) :
    IsTrans Nat (fun i j => s.getD i 0 ≤ s.getD j 0) :=
  ⟨fun _ _ _ hab hbc => le_trans hab hbc⟩

theorem pairwise_orderedInsert_tie (s : List Int) (x : Nat) :
    ∀ M : List Nat, (∀ y ∈ M, x < y) →
      M.Pairwise (fun a b => s.getD a 0 = s.getD b 0 → a < b) →
      (M.orderedInsert (fun i j => s.getD i 0 ≤ s.getD j 0) x).Pairwise
        (fun a b => s.getD a 0 = s.getD b 0 → a < b)
  | [], _, _ => by simp
  | b :: M, hmem, hpair => by
    rw [List.orderedInsert]
    split
    · exact List.pairwise_cons.mpr ⟨fun y hy _ => hmem y hy, hpair⟩
    · rename_i hnb
      rcases List.pairwise_cons.mp hpair with ⟨hb, hM⟩
      refine List.pairwise_cons.mpr ⟨?_,
        pairwise_orderedInsert_tie s x M
          (fun y hy => hmem y (List.mem_cons_of_mem _ hy)) hM⟩
      intro y hy
      rcases (List.mem_orderedInsert _).mp hy with rfl | hyM
      · intro heq
        have : s.getD b 0 < s.getD y 0 := lt_of_not_le hnb
        omega
      · exact hb y hyM

theorem pairwise_insertionSort_tie (s : List Int) :
    ∀ l : List Nat, l.Pairwise (· < ·) →
      (List.insertionSort (fun i j => s.getD i 0 ≤ s.getD j 0) l).Pairwise
        (fun a b => s.getD a 0 = s.getD b 0 → a < b)
  | [], _ => by simp
  | x :: l, h => by
    rcases List.pairwise_cons.mp h with ⟨hx, hl⟩
    rw [List.insertionSort]
    exact pairwise_orderedInsert_tie s x _
      (fun y hy =>
        hx y ((List.perm_insertionSort (fun i j => s.getD i 0 ≤ s.getD j 0) l).subset hy))
      (pairwise_insertionSort_tie s l hl)

theorem argsortAsc_perm (s : List Int) :
    List.Perm (argsortAsc s) (List.range s.length) :=
  List.perm_insertionSort _ _

theorem argsortAsc_ne_nil (s : List Int) (h : s ≠ []) : argsortAsc s ≠ [] := by
  intro h0
  have hp := argsortAsc_perm s
  rw [h0] at hp
  have := hp.symm.eq_nil
  rw [List.range_eq_nil] at this
  exact h (List.length_eq_zero.mp this)

/-- The last element of the stable ascending argsort: in bounds, holds the
maximum score, and every later index has a strictly smaller score. -/
theorem argsortAsc_getLast_spec (s : List Int) (h : argsortAsc s ≠ []) :
    (argsortAsc s).getLast h < s.length ∧
    (∀ j, j < s.length → s.getD j 0 ≤ s.getD ((argsortAsc s).getLast h) 0) ∧
    (∀ j, (argsortAsc s).getLast h < j → j < s.length →
      s.getD j 0 < s.getD ((argsortAsc s).getLast h) 0) := by
  have hperm := argsortAsc_perm s
  have hsorted : (argsortAsc s).Pairwise (fun i j => s.getD i 0 ≤ s.getD j 0) :=
    List.sorted_insertionSort _ _
  have htie : (argsortAsc s).Pairwise (fun a b => s.getD a 0 = s.getD b 0 → a < b) :=
    pairwise_insertionSort_tie s _ (List.pairwise_lt_range s.length)
  set i := (argsortAsc s).getLast h with hi
  have hdecomp : (argsortAsc s).dropLast ++ [i] = argsortAsc s :=
    List.dropLast_append_getLast h
  have hmem_iff : ∀ j, j ∈ argsortAsc s ↔ j < s.length := by
    intro j
    rw [hperm.mem_iff, List.mem_range]
  have hi_lt : i < s.length := (hmem_iff i).mp (List.getLast_mem h)
  have hsplit : ∀ j, j ∈ argsortAsc s → j = i ∨ j ∈ (argsortAsc s).dropLast := by
    intro j hj
    rw [← hdecomp, List.mem_append, List.mem_singleton] at hj
    tauto
  rw [← hdecomp] at hsorted htie
  have hle : ∀ a ∈ (argsortAsc s).dropLast, s.getD a 0 ≤ s.getD i 0 := by
    intro a ha
    have := (List.pairwise_append.mp hsorted).2.2 a ha i (List.mem_singleton_self i)
    exact this
  have htie2 : ∀ a ∈ (argsortAsc s).dropLast, s.getD a 0 = s.getD i 0 → a < i := by
    intro a ha
    exact (List.pairwise_append.mp htie).2.2 a ha i (List.mem_singleton_self i)
  refine ⟨hi_lt, ?_, ?_⟩
  · intro j hj
    rcases hsplit j ((hmem_iff j).mpr hj) with rfl | hjd
    · exact le_refl _
    · exact hle j hjd
  · intro j hij hj
    rcases hsplit j ((hmem_iff j).mpr hj) with rfl | hjd
    · omega
    · have h1 := hle j hjd
      have h2 := htie2 j hjd
      rcases lt_or_eq_of_le h1 with h3 | h3
      · exact h3
      · exact absurd (h2 h3) (by omega)

/-- C2 (amended): the retained mask and score for a point prompt come from a
candidate index achieving the maximum score; among tied maxima the retained
candidate is the one occurring last in the predictor's returned order. -/
theorem retained_mask_max_score (pred : Predictor) (img : Image) (r : AnnRow)
    (masks : List Mask) (scores : List Int)
    (hp : pred img (r.x, r.y) (List.replicate 1 1) = (masks, scores))
    (hne : scores ≠ []) :
    ∃ i, i < scores.length ∧
      (predictPoint pred img r).2.1.getD 0 [] = masks.getD i [] ∧
      (predictPoint pred img r).2.2.getD 0 0 = scores.getD i 0 ∧
      (∀ j, j < scores.length → scores.getD j 0 ≤ scores.getD i 0) ∧
      (∀ j, i < j → j < scores.length → scores.getD j 0 < scores.getD i 0) := by
  have hL : argsortAsc scores ≠ [] := argsortAsc_ne_nil scores hne
  obtain ⟨hlt, hmax, hlast⟩ := argsortAsc_getLast_spec scores hL
  refine ⟨(argsortAsc scores).getLast hL, hlt, ?_, ?_, hmax, hlast⟩ <;>
  · show ((argsortAsc ((pred img (r.x, r.y) (List.replicate 1 1)).2)).reverse.map _).getD 0 _ = _
    rw [hp]
    have hrev : (argsortAsc scores).reverse =
        (argsortAsc scores).getLast hL :: (argsortAsc scores).dropLast.reverse := by
      conv => lhs; rw [← List.dropLast_append_getLast hL]
      rw [List.reverse_append]
      rfl
    rw [hrev]
    rfl

theorem retained_mask_max_score_witness :
    ∃ i, i < ([1, 1] : List Int).length ∧
      (predictPoint (fun _ _ _ => ([[[false]], [[true]]], [1, 1])) [[(0, 0, 0)]]
          ⟨0, 0, []⟩).2.1.getD 0 [] = ([[[false]], [[true]]] : List Mask).getD i [] ∧
      (predictPoint (fun _ _ _ => ([[[false]], [[true]]], [1, 1])) [[(0, 0, 0)]]
          ⟨0, 0, []⟩).2.2.getD 0 0 = ([1, 1] : List Int).getD i 0 ∧
      (∀ j, j < ([1, 1] : List Int).length →
        ([1, 1] : List Int).getD j 0 ≤ ([1, 1] : List Int).getD i 0) ∧
      (∀ j, i < j → j < ([1, 1] : List Int).length →
        ([1, 1] : List Int).getD j 0 < ([1, 1] : List Int).getD i 0) :=
  retained_mask_max_score (fun _ _ _ => ([[[false]], [[true]]], [1, 1])) [[(0, 0, 0)]]
    ⟨0, 0, []⟩ [[[false]], [[true]]] [1, 1] rfl (by decide)

/-- C2 counterexample: with two candidates of equal (maximum) score, the
retained mask is the second candidate, not the first-occurring one, so ties
are not broken by first-occurrence order. -/
theorem tie_break_counterexample :
    (predictPoint (fun _ _ _ => ([[[false]], [[true]]], [1, 1])) [[(0, 0, 0)]]
        ⟨0, 0, []⟩).2.1.getD 0 [] = [[true]] ∧
    ([[true]] : Mask) ≠ [[false]] ∧
    ([1, 1] : List Int).getD 0 0 = ([1, 1] : List Int).getD 1 0 := by
  decide

/-! ## The prompt column records the last row's point, not each row's own -/

/-- C1: the writing loop reuses the Python variable `row` left over from the
prediction loop, so every `prompt` cell holds the final annotation row's
coordinates. With points (1,2) and (3,4), both table rows get prompt
`"[3, 4]"`, and that differs from the first row's own point `"[1, 2]"`. -/
theorem prompt_column_stale_row :
    (processAnnFile (fun _ _ _ => ([[[true]]], [1])) (fun _ => [0])
        (fun f => if f = ['a', '.', 'j', 'p', 'g'] then some [[(0, 0, 0)]] else none)
        ['a', '_', 'p'] [⟨1, 2, []⟩, ⟨3, 4, []⟩]).map
      (fun out => out.2.2.map TableRow.prompt) =
      some [pyListRepr [3, 4], pyListRepr [3, 4]] ∧
    pyListRepr [3, 4] ≠ pyListRepr [1, 2] := by
  decide

end PaparazziSam
